import Mathlib

/-!
Formal model of the task-CSV builder in `src/app.py`: the ephemeral
share-link token store (`cleanup_temp_downloads`, `create_temp_download`,
`get_temp_download`), the CSV payload codec (`encode_csv_payload`,
`decode_csv_payload`), the schedule normalizer
(`normalize_schedule_to_hhmm`), the row defaulting engine
(`fill_blank_with_default`) together with the export filtering, and
`normalize_public_url`.

Bytes are modelled as `Nat` (with explicit `< 256` bounds where the byte
structure matters), absolute timestamps as `Int` (seconds since the epoch,
as produced by `datetime.timestamp()`), and Python byte strings as
`List Nat`.  External library collaborators (`zlib`, `json`,
`pandas.to_datetime`) are modelled by explicit parameters carrying exactly
their documented contracts; everything else is translated directly from
the source.
-/

set_option autoImplicit false

/-! ## Python string primitives -/

/-- The six characters `str.strip()` removes: space, `\t`, `\n`, `\r`,
`\x0b`, `\x0c` (identified by code point). -/
def pyIsSpace (c : Char) : Bool :=
  let n := c.toNat
  n = 32 || n = 9 || n = 10 || n = 13 || n = 11 || n = 12

/-- `str.strip()` on a character list: drop leading and trailing whitespace. -/
def pystripL (l : List Char) : List Char :=
  ((l.dropWhile pyIsSpace).reverse.dropWhile pyIsSpace).reverse

/-- `str.strip()` on a string. -/
def pystrip (s : String) : String :=
  String.mk (pystripL s.data)

/-- ASCII lower-casing of one character, as `str.lower()` acts on the
ASCII range (the only range the program compares against `"none"`). -/
def pyLowerChar (c : Char) : Char :=
  if 65 ≤ c.toNat ∧ c.toNat ≤ 90 then Char.ofNat (c.toNat + 32) else c

/-- `str.lower()`. -/
def pyLowerStr (s : String) : String :=
  String.mk (s.data.map pyLowerChar)

/-! ## Share-link token store (strategy a)

`TEMP_DOWNLOADS` is a Python dict from token to
`{"data": bytes, "file_name": str, "expires_at": datetime}`; it is
modelled as an association list with unique keys.  Each store operation
in the source calls `datetime.now(timezone.utc)` separately for its
cleanup pass and for its own expiry logic, so the model takes the two
observed times as separate parameters. -/

/-- One record of `TEMP_DOWNLOADS`. -/
structure DLRec where
  data : List Nat
  file_name : String
  expires_at : Int
  deriving DecidableEq

/-- The `TEMP_DOWNLOADS` dict: token to record. -/
abbrev TokenStore : Type := List (String × DLRec)

/-- `TEMP_DOWNLOADS.get(token)`. -/
def lookupTok (token : String) : TokenStore → Option DLRec
  | [] => none
  | (k, v) :: rest => if k = token then some v else lookupTok token rest

/-- `del TEMP_DOWNLOADS[token]` (dict keys are unique, so deleting the
key removes every association with it). -/
def eraseTok (token : String) (s : TokenStore) : TokenStore :=
  List.filter (fun p => p.1 ≠ token) s

/-- `cleanup_temp_downloads` observed at time `now`: delete every record
whose `expires_at <= now`, i.e. keep exactly the records with
`now < expires_at`. -/
def cleanup_temp_downloads (now : Int) (s : TokenStore) : TokenStore :=
  List.filter (fun p => now < p.2.expires_at) s

/-- `create_temp_download`: cleanup (observing time `tClean`), then store
`{data, file_name, expires_at = tNow + ttl_minutes minutes}` under the
freshly generated `token` (the random token is a parameter), returning
`(token, expires_at)` and the updated store. -/
def create_temp_download (tClean tNow : Int) (token : String) (data : List Nat)
    (file_name : String) (ttl_minutes : Int) (store : TokenStore) :
    (String × Int) × TokenStore :=
  let s := cleanup_temp_downloads tClean store
  let expires_at := tNow + 60 * ttl_minutes
  ((token, expires_at), (token, ⟨data, file_name, expires_at⟩) :: eraseTok token s)

/-- `get_temp_download`: cleanup (observing time `tClean`), look up the
token; absent gives `None`; `expires_at <= tNow` deletes the record and
gives `None`; otherwise the record is returned and kept. -/
def get_temp_download (tClean tNow : Int) (token : String) (store : TokenStore) :
    Option DLRec × TokenStore :=
  let s := cleanup_temp_downloads tClean store
  match lookupTok token s with
  | none => (none, s)
  | some item =>
    if item.expires_at ≤ tNow then (none, eraseTok token s) else (some item, s)

/-! ## Schedule normalizer

`normalize_schedule_to_hhmm` iterates over a pandas Series.  One element
is modelled as `Option String`: `none` is a value with `pd.isna(value)`
true, `some s` a value with `str(value) = s`.  The generic parser
`pd.to_datetime(text, errors="coerce")` followed by
`parsed.strftime("%H:%M")` is an external pandas collaborator; it is
modelled as a parameter `P : String → Option (Nat × Nat)` returning the
parsed timestamp's (hour, minute), or `none` when the parse coerces to
`NaT`. -/

/-- The characters matched by the regex class `\d` in the ASCII range
(the source regex is `^\d{3,4}$`). -/
def pyIsDigitChar (c : Char) : Bool :=
  48 ≤ c.toNat && c.toNat ≤ 57

/-- Numeric value of a digit character, as `int(text[i])` uses it. -/
def digitVal (c : Char) : Nat :=
  c.toNat - 48

/-- The digit character for `n ≤ 9`. -/
def digitChar (n : Nat) : Char :=
  Char.ofNat (48 + n)

/-- `f"{h:02d}:{m:02d}"` for `h, m < 100` — the only values the program
formats: positional hour/minute pass the `h ≤ 23`/`m ≤ 59` check, and
`strftime("%H:%M")` values are bounded the same way. -/
def formatHHMM (h m : Nat) : String :=
  String.mk [digitChar (h / 10), digitChar (h % 10), ':',
    digitChar (m / 10), digitChar (m % 10)]

/-- The external generic time parser: `pd.to_datetime(text,
errors="coerce")` composed with hour/minute extraction via
`strftime("%H:%M")`; `none` models `NaT`. -/
abbrev TimeParse : Type := String → Option (Nat × Nat)

/-- One iteration of the loop body of `normalize_schedule_to_hhmm`. -/
def normalizeOne (P : TimeParse) (value : Option String) : String :=
  match value with
  | none => ""
  | some v =>
    let text := pystrip v
    if text = "" ∨ pyLowerStr text = "none" then ""
    else
      let generic : String :=
        match P text with
        | some (h, m) => formatHHMM h m
        | none => text
      match text.data with
      | [c1, c2, c3] =>
        if pyIsDigitChar c1 && pyIsDigitChar c2 && pyIsDigitChar c3 then
          let h := digitVal c1
          let m := 10 * digitVal c2 + digitVal c3
          if h ≤ 23 && m ≤ 59 then formatHHMM h m else generic
        else generic
      | [c1, c2, c3, c4] =>
        if pyIsDigitChar c1 && pyIsDigitChar c2 && pyIsDigitChar c3 &&
            pyIsDigitChar c4 then
          let h := 10 * digitVal c1 + digitVal c2
          let m := 10 * digitVal c3 + digitVal c4
          if h ≤ 23 && m ≤ 59 then formatHHMM h m else generic
        else generic
      | _ => generic

/-- `normalize_schedule_to_hhmm` on a whole Series. -/
def normalize_schedule_to_hhmm (P : TimeParse) (series : List (Option String)) :
    List String :=
  series.map (normalizeOne P)

/-- A concrete generic parser used to instantiate witnesses: parses
exactly canonical `HH:MM` strings (which `pd.to_datetime` parses as
today's date at that wall-clock time) and coerces everything else to
`NaT`. -/
def hhmmColonParse (s : String) : Option (Nat × Nat) :=
  match s.data with
  | [h1, h2, ':', m1, m2] =>
    if pyIsDigitChar h1 && pyIsDigitChar h2 && pyIsDigitChar m1 &&
        pyIsDigitChar m2 then
      if 10 * digitVal h1 + digitVal h2 ≤ 23 &&
          10 * digitVal m1 + digitVal m2 ≤ 59 then
        some (10 * digitVal h1 + digitVal h2, 10 * digitVal m1 + digitVal m2)
      else none
    else none
  | _ => none

/-! ## Row defaulting engine and export filtering

`fill_blank_with_default` works column-wise on a pandas DataFrame; the
model works row-wise over a fixed record of cells, which produces the
same cell values.  Loosely-typed cells are parameters: `DueDate` input
cells have some type `A` with the external
`pd.to_datetime(·, errors="coerce")` modelled as `parseDate : A →
Option D` (`none` = `NaT`), and `Estimated` cells a type `B` with
`pd.to_numeric(·, errors="coerce")` modelled as `parseNum : B → Option
N`.  String cells are `Option String` (`none` = `NaN`). -/

/-- One input row of the task sheet. -/
structure RawRow (A B : Type) where
  DueDate : A
  Schedule : Option String
  Section : Option String
  Project : Option String
  Tag : Option String
  TaskName : Option String
  Estimated : B
  deriving DecidableEq

/-- One row after `fill_blank_with_default`: every cell resolved. -/
structure FilledRow (D N : Type) where
  DueDate : D
  Schedule : String
  Section : String
  Project : String
  Tag : String
  TaskName : String
  Estimated : N
  deriving DecidableEq

/-- The `defaults` dict built from the default-value form. -/
structure DefaultsRec (D N : Type) where
  due_date : D
  Schedule : String
  Section : String
  Project : String
  Tag : String
  TaskName : String
  Estimated : N
  deriving DecidableEq

/-- One string column cell of `fill_blank_with_default`:
`astype("string").fillna("").str.strip()`, then
`if defaults[col] != "": out.loc[out[col] == "", col] = defaults[col]`. -/
def strCell (dflt : String) (cell : Option String) : String :=
  let v := pystrip (cell.getD "")
  if dflt ≠ "" ∧ v = "" then dflt else v

/-- `fill_blank_with_default` restricted to one row. -/
def fillRow {A B D N : Type} (parseDate : A → Option D) (parseNum : B → Option N)
    (defaults : DefaultsRec D N) (r : RawRow A B) : FilledRow D N where
  DueDate := (parseDate r.DueDate).getD defaults.due_date
  Schedule := strCell defaults.Schedule r.Schedule
  Section := strCell defaults.Section r.Section
  Project := strCell defaults.Project r.Project
  Tag := strCell defaults.Tag r.Tag
  TaskName := strCell defaults.TaskName r.TaskName
  Estimated := (parseNum r.Estimated).getD defaults.Estimated

/-- `fill_blank_with_default`: copy the table and resolve every cell. -/
def fill_blank_with_default {A B D N : Type} (parseDate : A → Option D)
    (parseNum : B → Option N) (defaults : DefaultsRec D N)
    (rows : List (RawRow A B)) : List (FilledRow D N) :=
  rows.map (fillRow parseDate parseNum defaults)

/-- One exported row: `DueDate` rendered `YYYY/MM/DD`, `Schedule`
normalized. -/
structure ExportRow (N : Type) where
  DueDate : String
  Schedule : String
  Section : String
  Project : String
  Tag : String
  TaskName : String
  Estimated : N
  deriving DecidableEq

/-- The `output_df` pipeline (source lines 754-760): apply defaults,
re-strip `TaskName`, drop rows whose `TaskName` is empty, then format
`DueDate` (external `strftime`, modelled as `fmtDate`) and re-normalize
`Schedule`. -/
def output_rows {A B D N : Type} (parseDate : A → Option D)
    (parseNum : B → Option N) (fmtDate : D → String) (P : TimeParse)
    (defaults : DefaultsRec D N) (rows : List (RawRow A B)) : List (ExportRow N) :=
  let filled := fill_blank_with_default parseDate parseNum defaults rows
  let stripped := filled.map (fun r => { r with TaskName := pystrip r.TaskName })
  let kept := stripped.filter (fun r => r.TaskName ≠ "")
  kept.map (fun r =>
    { DueDate := fmtDate r.DueDate
      Schedule := normalizeOne P (some r.Schedule)
      Section := r.Section
      Project := r.Project
      Tag := r.Tag
      TaskName := r.TaskName
      Estimated := r.Estimated })

/-! ## Public URL normalization -/

/-- Scanner for `str.replace(pat, rep)`: the `Nat` argument counts
characters still to be skipped because they belong to an occurrence
already replaced (skipping `k` characters is `List.drop k`, phrased
structurally). -/
def replaceSubAux (pat rep : List Char) : List Char → Nat → List Char
  | [], _ => []
  | _ :: rest, Nat.succ k => replaceSubAux pat rep rest k
  | c :: rest, 0 =>
    if pat.isPrefixOf (c :: rest) then
      rep ++ replaceSubAux pat rep rest (pat.length - 1)
    else c :: replaceSubAux pat rep rest 0

/-- `str.replace(pat, rep)`: replace non-overlapping occurrences left to
right (used only with non-empty patterns). -/
def replaceSub (pat rep l : List Char) : List Char :=
  replaceSubAux pat rep l 0

/-- Scanner for `str.count(pat)`, skip counter as in `replaceSubAux`. -/
def countSubAux (pat : List Char) : List Char → Nat → Nat
  | [], _ => 0
  | _ :: rest, Nat.succ k => countSubAux pat rest k
  | c :: rest, 0 =>
    if pat.isPrefixOf (c :: rest) then 1 + countSubAux pat rest (pat.length - 1)
    else countSubAux pat rest 0

/-- `str.count(pat)`: count non-overlapping occurrences left to right
(used only with non-empty patterns). -/
def countSub (pat l : List Char) : Nat :=
  countSubAux pat l 0

/-- `str.rfind(pat)`: the greatest index at which `pat` occurs, `none`
when absent (Python returns -1). -/
def rfindSub (l pat : List Char) : Option Nat :=
  ((List.range (l.length + 1)).filter (fun i => pat.isPrefixOf (l.drop i))).getLast?

/-- `str.rstrip("/")`. -/
def rstripSlashL (l : List Char) : List Char :=
  (l.reverse.dropWhile (fun c => c == '/')).reverse

/-- `normalize_public_url`: strip; empty gives empty; repair
`https:://`/`http:://` typos; when two or more scheme markers occur keep
only the content from the last one; prepend `https://` when no scheme is
present; strip trailing slashes. -/
def normalize_public_url (url : String) : String :=
  let text0 := pystripL url.data
  if text0 = [] then ""
  else
    let t1 := replaceSub "https:://".data "https://".data text0
    let t2 := replaceSub "http:://".data "http://".data t1
    let cnt := countSub "http://".data t2 + countSub "https://".data t2
    let t3 :=
      if 2 ≤ cnt then
        let lastHttps : Int :=
          match rfindSub t2 "https://".data with
          | some i => (i : Int)
          | none => -1
        let lastHttp : Int :=
          match rfindSub t2 "http://".data with
          | some i => (i : Int)
          | none => -1
        let start := max lastHttps lastHttp
        if 0 ≤ start then t2.drop start.toNat else t2
      else t2
    let t4 :=
      if ¬ ("http://".data.isPrefixOf t3) ∧ ¬ ("https://".data.isPrefixOf t3) then
        "https://".data ++ t3
      else t3
    String.mk (rstripSlashL t4)

/-! ## CSV payload codec

`encode_csv_payload` builds `{"exp": now+ttl, "b64": b64(data)}`,
serializes it (json), compresses (zlib), base64url-encodes and strips the
trailing `=` padding; `decode_csv_payload` re-pads, reverses every step,
checks the expiry and returns `(data?, exp?)`.  The base64 steps are
implemented bit-exactly.  `zlib` (together with the surrounding UTF-8
encode/decode) and `json` (together with the `int(envelope.get("exp",
0))` / `envelope["b64"]` field access) are external libraries, modelled
as bundled parameters carrying their round-trip contracts. -/

/-- The standard base64 alphabet. -/
def b64AlphaStd (n : Nat) : Char :=
  if n < 26 then Char.ofNat (65 + n)
  else if n < 52 then Char.ofNat (97 + (n - 26))
  else if n < 62 then Char.ofNat (48 + (n - 52))
  else if n = 62 then '+' else '/'

/-- The URL-safe base64 alphabet (`-` and `_` for 62 and 63). -/
def b64AlphaUrl (n : Nat) : Char :=
  if n = 62 then '-' else if n = 63 then '_' else b64AlphaStd n

/-- Value of a character in the standard alphabet. -/
def b64InvStd (c : Char) : Option Nat :=
  if 65 ≤ c.toNat ∧ c.toNat ≤ 90 then some (c.toNat - 65)
  else if 97 ≤ c.toNat ∧ c.toNat ≤ 122 then some (c.toNat - 97 + 26)
  else if 48 ≤ c.toNat ∧ c.toNat ≤ 57 then some (c.toNat - 48 + 52)
  else if c = '+' then some 62
  else if c = '/' then some 63
  else none

/-- `urlsafe_b64decode` translates `-`/`_` to `+`/`/` and then decodes
with the standard alphabet (so both spellings of 62/63 are accepted). -/
def b64InvUrl (c : Char) : Option Nat :=
  if c = '-' then some 62 else if c = '_' then some 63 else b64InvStd c

/-- Characters `b64decode(validate=False)` does not discard. -/
def b64KeepStd (c : Char) : Bool :=
  (b64InvStd c).isSome || c == '='

/-- Characters `urlsafe_b64decode` does not discard. -/
def b64KeepUrl (c : Char) : Bool :=
  (b64InvUrl c).isSome || c == '='

/-- The 6-bit groups of a byte string, big-endian, without padding. -/
def b64Body (alpha : Nat → Char) : List Nat → List Char
  | [] => []
  | [a] => [alpha (a / 4), alpha (a % 4 * 16)]
  | [a, b] => [alpha (a / 4), alpha (a % 4 * 16 + b / 16), alpha (b % 16 * 4)]
  | a :: b :: c :: rest =>
    alpha (a / 4) :: alpha (a % 4 * 16 + b / 16) :: alpha (b % 16 * 4 + c / 64) ::
      alpha (c % 64) :: b64Body alpha rest

/-- The `=` padding appended by `b64encode` for input length `n`. -/
def b64PadChars (n : Nat) : List Char :=
  if n % 3 = 1 then ['=', '='] else if n % 3 = 2 then ['='] else []

/-- `base64.b64encode` (respectively `urlsafe_b64encode`): body plus
padding. -/
def b64encode (alpha : Nat → Char) (l : List Nat) : String :=
  String.mk (b64Body alpha l ++ b64PadChars l.length)

/-- Decoding of the final 4-character group, honouring `=` padding. -/
def b64DecLast (inv : Char → Option Nat) (c1 c2 c3 c4 : Char) :
    Option (List Nat) :=
  if c3 = '=' then
    if c4 = '=' then
      match inv c1, inv c2 with
      | some a, some b => some [a * 4 + b / 16]
      | _, _ => none
    else none
  else if c4 = '=' then
    match inv c1, inv c2, inv c3 with
    | some a, some b, some c => some [a * 4 + b / 16, b % 16 * 16 + c / 4]
    | _, _, _ => none
  else
    match inv c1, inv c2, inv c3, inv c4 with
    | some a, some b, some c, some d =>
      some [a * 4 + b / 16, b % 16 * 16 + c / 4, c % 4 * 64 + d]
    | _, _, _, _ => none

/-- Group-wise base64 decoding of a 4-aligned character list; any other
length is a padding error (`binascii.Error`). -/
def b64DecGroups (inv : Char → Option Nat) : List Char → Option (List Nat)
  | [] => some []
  | c1 :: c2 :: c3 :: c4 :: rest =>
    match rest with
    | [] => b64DecLast inv c1 c2 c3 c4
    | _ =>
      match inv c1, inv c2, inv c3, inv c4, b64DecGroups inv rest with
      | some a, some b, some c, some d, some bs =>
        some ((a * 4 + b / 16) :: (b % 16 * 16 + c / 4) :: (c % 4 * 64 + d) :: bs)
      | _, _, _, _, _ => none
  | _ => none

/-- `base64.b64decode` with `validate=False` (the default): discard
characters outside the alphabet (keeping `=`), then decode groups. -/
def b64decode (inv : Char → Option Nat) (keep : Char → Bool) (s : String) :
    Option (List Nat) :=
  b64DecGroups inv (s.data.filter keep)

/-- `str.rstrip("=")`. -/
def rstripEqL (l : List Char) : List Char :=
  (l.reverse.dropWhile (fun c => c == '=')).reverse

/-- Model of the external compression stage:
`comp` is `zlib.compress(s.encode("utf-8"), level=9)` and `decomp` is
`zlib.decompress` followed by `bytes.decode("utf-8")`, with `none` for
any `zlib.error`/`UnicodeDecodeError`.  zlib's contract — output is
bytes and decompressing a compression yields the input — appears as
explicit hypotheses of the theorems below. -/
structure ZlibModel where
  comp : String → List Nat
  decomp : List Nat → Option String

/-- Model of the external JSON stage: `dumps e b` is
`json.dumps({"exp": e, "b64": b}, separators=(",", ":"))`; `loads` is
`json.loads` followed by `int(envelope.get("exp", 0))` and the
`envelope["b64"]` access — `none` for a parse/convert failure, `(e,
none)` for an object whose `"exp"` reads `e` but whose `"b64"` is
missing or invalid.  The JSON round-trip contract appears as an explicit
hypothesis of the theorems below. -/
structure JsonEnvModel where
  dumps : Int → String → String
  loads : String → Option (Int × Option String)

/-- `encode_csv_payload`: expiry is `now + 60*ttl_minutes` seconds;
envelope is serialized, compressed, URL-safe base64 encoded, and the
trailing `=` padding stripped. -/
def encode_csv_payload (Z : ZlibModel) (J : JsonEnvModel) (data : List Nat)
    (ttl_minutes now : Int) : String :=
  let expires_at := now + 60 * ttl_minutes
  let envelope := J.dumps expires_at (b64encode b64AlphaStd data)
  let compressed := Z.comp envelope
  String.mk (rstripEqL (b64encode b64AlphaUrl compressed).data)

/-- `decode_csv_payload`: re-pad to a 4-character boundary, reverse every
encoding step (any failure gives `(none, none)`), then compare the
embedded expiry with `now`: expired gives `(none, exp)`, otherwise the
payload bytes are recovered. -/
def decode_csv_payload (Z : ZlibModel) (J : JsonEnvModel) (now : Int)
    (payload : String) : Option (List Nat) × Option Int :=
  let padded :=
    payload ++ String.mk (List.replicate ((4 - payload.length % 4) % 4) '=')
  match b64decode b64InvUrl b64KeepUrl padded with
  | none => (none, none)
  | some compressed =>
    match Z.decomp compressed with
    | none => (none, none)
    | some raw =>
      match J.loads raw with
      | none => (none, none)
      | some (exp, b64field) =>
        if exp ≤ now then (none, some exp)
        else
          match b64field with
          | none => (none, none)
          | some bs =>
            match b64decode b64InvStd b64KeepStd bs with
            | none => (none, none)
            | some d => (some d, some exp)

/-- A concrete invertible "compression" used to instantiate witnesses:
three bytes per code point behind a one-byte header (so that the byte
count is never a multiple of three and the base64 output is genuinely
padded, as with typical zlib output sizes). -/
def enc3 (c : Char) : List Nat :=
  [c.toNat / 65536, c.toNat / 256 % 256, c.toNat % 256]

/-- Inverse of `enc3`, three bytes at a time. -/
def dec3 : List Nat → Option (List Char)
  | [] => some []
  | a :: b :: c :: rest =>
    (dec3 rest).map (fun l => Char.ofNat (a * 65536 + b * 256 + c) :: l)
  | _ => none

/-- Witness compression model. -/
def zlibWitness : ZlibModel where
  comp s := 0 :: s.data.flatMap enc3
  decomp l :=
    match l with
    | 0 :: rest => (dec3 rest).map String.mk
    | _ => none

/-- Non-negative integer code of an integer (witness serialization). -/
def zigzag (e : Int) : Nat :=
  (if 0 ≤ e then 2 * e else -2 * e - 1).toNat

/-- Inverse of `zigzag`. -/
def unzigzag (n : Nat) : Int :=
  if n % 2 = 0 then ((n / 2 : Nat) : Int) else -((n / 2 : Nat) : Int) - 1

/-- Witness envelope serializer: the expiry in unary followed by `:` and
the base64 field (any injective serialization with a computable inverse
satisfies the JSON contract used by the theorems). -/
def jsonWitness : JsonEnvModel where
  dumps e b := String.mk (List.replicate (zigzag e) 'x' ++ ':' :: b.data)
  loads s :=
    match s.data.dropWhile (fun c => c == 'x') with
    | ':' :: rest =>
      some (unzigzag (s.data.takeWhile (fun c => c == 'x')).length,
        some (String.mk rest))
    | _ => none

/-- A concrete payload string that `decode_csv_payload` accepts although
`encode_csv_payload` can never produce it: a valid token with its
stripped base64 padding re-attached. -/
def c1BadToken : String :=
  encode_csv_payload zlibWitness jsonWitness [104, 105] 1 (-59) ++ "=="

/-! ## Theorems -/

theorem mem_cleanup_iff (now : Int) (s : TokenStore) (p : String × DLRec) :
    p ∈ cleanup_temp_downloads now s ↔ p ∈ s ∧ now < p.2.expires_at := by
  simp [cleanup_temp_downloads, List.mem_filter]

theorem mem_of_mem_eraseTok (token : String) (s : TokenStore) (p : String × DLRec)
    (h : p ∈ eraseTok token s) : p ∈ s := by
  rw [eraseTok, List.mem_filter] at h
  exact h.1

theorem lookupTok_eraseTok (token : String) (s : TokenStore) :
    lookupTok token (eraseTok token s) = none := by
  induction s with
  | nil => rfl
  | cons hd tl ih =>
    by_cases h : hd.1 = token
    · simpa [eraseTok, h] using ih
    · simpa [eraseTok, lookupTok, h] using ih

theorem eraseTok_of_lookupTok_none (token : String) (s : TokenStore)
    (h : lookupTok token s = none) : eraseTok token s = s := by
  induction s with
  | nil => rfl
  | cons hd tl ih =>
    by_cases hk : hd.1 = token
    · simp [lookupTok, hk] at h
    · simp only [lookupTok, hk, if_neg] at h
      simp [eraseTok, hk] at ih ⊢
      exact ih h

/-- C2 counterexample: the claim asserts that a `not_found` redemption and
an `expired` redemption return distinct, caller-distinguishable outcomes.
In the code both paths return `None`: redeeming the unknown token
`"other"` and redeeming the expired token `"tok"` (stored with
`expires_at = 10`, redeemed with cleanup time 0 and check time 20) give
equal results, even though the second genuinely takes the expired path
(it deletes the record). -/
theorem c2_counterexample :
    (get_temp_download 0 20 "tok" [("tok", ⟨[1], "f.csv", 10⟩)]).1 = none ∧
    (get_temp_download 0 20 "other" [("tok", ⟨[1], "f.csv", 10⟩)]).1 = none ∧
    (get_temp_download 0 20 "tok" [("tok", ⟨[1], "f.csv", 10⟩)]).1
      = (get_temp_download 0 20 "other" [("tok", ⟨[1], "f.csv", 10⟩)]).1 ∧
    lookupTok "tok" (get_temp_download 0 20 "tok" [("tok", ⟨[1], "f.csv", 10⟩)]).2
      = none := by
  refine ⟨rfl, rfl, rfl, rfl⟩

/-- C2 (amended): redeeming a token absent from the (cleaned) store
returns `none` and leaves the cleaned store; redeeming a token whose
record has `expires_at <= now` deletes that record and also returns
`none`.  The two outcomes are the same value `none`: they are not
distinguishable by the caller through the return value. -/
theorem c2_redeem_absent_vs_expired (tC tN : Int) (token : String) (store : TokenStore) :
    (lookupTok token (cleanup_temp_downloads tC store) = none →
      get_temp_download tC tN token store = (none, cleanup_temp_downloads tC store)) ∧
    (∀ item : DLRec, lookupTok token (cleanup_temp_downloads tC store) = some item →
      item.expires_at ≤ tN →
      get_temp_download tC tN token store
          = (none, eraseTok token (cleanup_temp_downloads tC store)) ∧
        lookupTok token (get_temp_download tC tN token store).2 = none) := by
  constructor
  · intro h
    simp [get_temp_download, h]
  · intro item h hexp
    have hg : get_temp_download tC tN token store
        = (none, eraseTok token (cleanup_temp_downloads tC store)) := by
      simp [get_temp_download, h, hexp]
    refine ⟨hg, ?_⟩
    rw [hg]
    exact lookupTok_eraseTok token _

/-- C2 witness: the amended theorem applied to a concrete store.
Redeeming the unknown token `"b"` returns `none` with the store intact;
redeeming the expired token `"a"` returns `none` and deletes the record. -/
theorem c2_witness :
    get_temp_download 0 9 "b" [("a", ⟨[2], "g", 5⟩)] = (none, [("a", ⟨[2], "g", 5⟩)]) ∧
    get_temp_download 0 9 "a" [("a", ⟨[2], "g", 5⟩)] = (none, []) ∧
    lookupTok "a" (get_temp_download 0 9 "a" [("a", ⟨[2], "g", 5⟩)]).2 = none := by
  refine ⟨?_, ?_, ?_⟩
  · exact ((c2_redeem_absent_vs_expired 0 9 "b" [("a", ⟨[2], "g", 5⟩)]).1 (by decide)).trans
      (by decide)
  · exact (((c2_redeem_absent_vs_expired 0 9 "a" [("a", ⟨[2], "g", 5⟩)]).2 ⟨[2], "g", 5⟩
      (by decide) (by decide)).1).trans (by decide)
  · exact ((c2_redeem_absent_vs_expired 0 9 "a" [("a", ⟨[2], "g", 5⟩)]).2 ⟨[2], "g", 5⟩
      (by decide) (by decide)).2

/-- C3: after `create_temp_download` stores `data`/`file_name` under
`token` with expiry `tNow + 60*ttl` seconds, any redemption whose cleanup
time `t1` and check time `t2` satisfy `t1 ≤ t2 < expiry` returns exactly
the stored record, and the record is still present in the store
afterwards (so the same token can be redeemed again until expiry). -/
theorem c3_redeem_within_ttl (tC tN t1 t2 ttl : Int) (token file_name : String)
    (data : List Nat) (store : TokenStore)
    (hmono : t1 ≤ t2) (hbefore : t2 < tN + 60 * ttl) :
    (get_temp_download t1 t2 token
        (create_temp_download tC tN token data file_name ttl store).2).1
      = some ⟨data, file_name, tN + 60 * ttl⟩ ∧
    lookupTok token (get_temp_download t1 t2 token
        (create_temp_download tC tN token data file_name ttl store).2).2
      = some ⟨data, file_name, tN + 60 * ttl⟩ := by
  have hkeep : t1 < tN + 60 * ttl := by omega
  have hexp : ¬ (tN + 60 * ttl ≤ t2) := by omega
  simp only [create_temp_download, get_temp_download, cleanup_temp_downloads,
    List.filter_cons]
  simp only [decide_eq_true_eq, hkeep, if_pos]
  simp [lookupTok, hexp]

/-- C3 witness: issue then redeem within the TTL on a concrete store. -/
theorem c3_witness :
    (get_temp_download 1 2 "t" (create_temp_download 0 0 "t" [9] "f" 1 []).2).1
      = some ⟨[9], "f", 60⟩ ∧
    lookupTok "t" (get_temp_download 1 2 "t" (create_temp_download 0 0 "t" [9] "f" 1 []).2).2
      = some ⟨[9], "f", 60⟩ := by
  exact c3_redeem_within_ttl 0 0 1 2 1 "t" "f" [9] [] (by decide) (by decide)

/-- C10: (i) with a fresh token, issuing prepends exactly one new record
to the cleaned store; (ii) after issuing (with cleanup time ≤ expiry-base
time and positive TTL) every record in the store is unexpired relative to
the cleanup time; (iii) the same holds after any redemption; (iv) the
cleanup pass keeps exactly the records that are unexpired at the observed
time. -/
theorem c10_store_invariant (tC tN ttl : Int) (token file_name : String)
    (data : List Nat) (store : TokenStore)
    (hmono : tC ≤ tN) (httl : 0 < ttl)
    (hfresh : lookupTok token (cleanup_temp_downloads tC store) = none) :
    ((create_temp_download tC tN token data file_name ttl store).2
        = (token, ⟨data, file_name, tN + 60 * ttl⟩) :: cleanup_temp_downloads tC store) ∧
    (∀ p : String × DLRec,
        p ∈ (create_temp_download tC tN token data file_name ttl store).2 →
        tC < p.2.expires_at) ∧
    (∀ (token' : String) (p : String × DLRec),
        p ∈ (get_temp_download tC tN token' store).2 → tC < p.2.expires_at) ∧
    (∀ p : String × DLRec,
        p ∈ cleanup_temp_downloads tC store ↔ p ∈ store ∧ tC < p.2.expires_at) := by
  have hins : (create_temp_download tC tN token data file_name ttl store).2
      = (token, ⟨data, file_name, tN + 60 * ttl⟩) :: cleanup_temp_downloads tC store := by
    simp only [create_temp_download]
    rw [eraseTok_of_lookupTok_none token _ hfresh]
  refine ⟨hins, ?_, ?_, fun p => mem_cleanup_iff tC store p⟩
  · intro p hp
    rw [hins] at hp
    rcases List.mem_cons.mp hp with h | h
    · subst h
      simp only []
      omega
    · exact ((mem_cleanup_iff tC store p).mp h).2
  · intro token' p hp
    rcases hcase : lookupTok token' (cleanup_temp_downloads tC store) with _ | item
    · simp only [get_temp_download, hcase] at hp
      exact ((mem_cleanup_iff tC store p).mp hp).2
    · by_cases hexp : item.expires_at ≤ tN
      · simp only [get_temp_download, hcase, if_pos hexp] at hp
        exact ((mem_cleanup_iff tC store p).mp (mem_of_mem_eraseTok token' _ p hp)).2
      · simp only [get_temp_download, hcase, if_neg hexp] at hp
        exact ((mem_cleanup_iff tC store p).mp hp).2

/-- C10 witness: issuing into a store holding one expired and one live
record, with concrete times. -/
theorem c10_witness :
    ((create_temp_download 10 10 "new" [7] "f" 1
        [("old", ⟨[1], "a", 5⟩), ("live", ⟨[2], "b", 99⟩)]).2
      = [("new", ⟨[7], "f", 70⟩), ("live", ⟨[2], "b", 99⟩)]) ∧
    (∀ p : String × DLRec,
        p ∈ (create_temp_download 10 10 "new" [7] "f" 1
          [("old", ⟨[1], "a", 5⟩), ("live", ⟨[2], "b", 99⟩)]).2 →
        (10 : Int) < p.2.expires_at) := by
  have h := c10_store_invariant 10 10 1 "new" "f" [7]
    [("old", ⟨[1], "a", 5⟩), ("live", ⟨[2], "b", 99⟩)]
    (by decide) (by decide) (by decide)
  exact ⟨h.1.trans (by decide), h.2.1⟩

theorem data_mk (l : List Char) : (String.mk l).data = l := rfl

theorem mk_eq_mk (l1 l2 : List Char) : String.mk l1 = String.mk l2 ↔ l1 = l2 :=
  ⟨fun h => congrArg String.data h, fun h => congrArg String.mk h⟩

theorem none_str_eq : ("none" : String) = String.mk ['n', 'o', 'n', 'e'] := rfl

theorem empty_str_eq : ("" : String) = String.mk [] := rfl

theorem dropWhile_all_false {α : Type} (p : α → Bool) (l : List α)
    (h : ∀ c ∈ l, p c = false) : l.dropWhile p = l := by
  cases l with
  | nil => rfl
  | cons a t => simp [List.dropWhile_cons, h a (by simp)]

theorem pystripL_all_false (l : List Char) (h : ∀ c ∈ l, pyIsSpace c = false) :
    pystripL l = l := by
  unfold pystripL
  rw [dropWhile_all_false pyIsSpace l h]
  rw [dropWhile_all_false pyIsSpace l.reverse
    (fun c hc => h c (List.mem_reverse.mp hc))]
  exact List.reverse_reverse l

theorem dropWhile_head_false {α : Type} (p : α → Bool) (l : List α) (a : α)
    (t : List α) (h : l.dropWhile p = a :: t) : p a = false := by
  induction l with
  | nil => simp at h
  | cons b r ih =>
    rw [List.dropWhile_cons] at h
    by_cases hb : p b = true
    · rw [if_pos hb] at h
      exact ih h
    · rw [if_neg hb] at h
      cases h
      simpa using hb

theorem dropWhile_idem {α : Type} (p : α → Bool) (l : List α) :
    (l.dropWhile p).dropWhile p = l.dropWhile p := by
  rcases hd : l.dropWhile p with _ | ⟨a, t⟩
  · rfl
  · rw [List.dropWhile_cons, if_neg]
    rw [dropWhile_head_false p l a t hd]
    simp

theorem pystripL_idem (l : List Char) : pystripL (pystripL l) = pystripL l := by
  unfold pystripL
  set A := l.dropWhile pyIsSpace with hA
  set B := A.reverse.dropWhile pyIsSpace with hB
  have hpre : B.reverse.IsPrefix A := by
    have hsuf : B.IsSuffix A.reverse := by
      rw [hB]
      exact List.dropWhile_suffix pyIsSpace
    obtain ⟨r, hr⟩ := hsuf
    exact ⟨r.reverse, by rw [← List.reverse_reverse A, ← hr, List.reverse_append]⟩
  have h1 : B.reverse.dropWhile pyIsSpace = B.reverse := by
    rcases hbr : B.reverse with _ | ⟨a, t⟩
    · rfl
    · obtain ⟨rest, hrest⟩ := hpre
      rw [hbr] at hrest
      have hfalse : pyIsSpace a = false := by
        refine dropWhile_head_false pyIsSpace l a (t ++ rest) ?_
        rw [← hA]
        rw [← hrest]
        rfl
      rw [List.dropWhile_cons, if_neg]
      rw [hfalse]
      simp
  rw [h1, List.reverse_reverse, dropWhile_idem]

theorem pystrip_idem (s : String) : pystrip (pystrip s) = pystrip s := by
  show String.mk (pystripL (pystripL s.data)) = String.mk (pystripL s.data)
  rw [pystripL_idem]

theorem not_space_of_digit (c : Char) (h : pyIsDigitChar c = true) :
    pyIsSpace c = false := by
  simp only [pyIsDigitChar, Bool.and_eq_true, decide_eq_true_eq] at h
  simp only [pyIsSpace, Bool.or_eq_false_iff, decide_eq_false_iff_not]
  omega

theorem pyLower_digit (c : Char) (h : pyIsDigitChar c = true) :
    pyLowerChar c = c := by
  simp only [pyIsDigitChar, Bool.and_eq_true, decide_eq_true_eq] at h
  unfold pyLowerChar
  rw [if_neg (by omega)]

theorem normalizeOne_digits3 (P : TimeParse) (c1 c2 c3 : Char)
    (h1 : pyIsDigitChar c1 = true) (h2 : pyIsDigitChar c2 = true)
    (h3 : pyIsDigitChar c3 = true) :
    normalizeOne P (some (String.mk [c1, c2, c3]))
      = if digitVal c1 ≤ 23 && 10 * digitVal c2 + digitVal c3 ≤ 59 then
          formatHHMM (digitVal c1) (10 * digitVal c2 + digitVal c3)
        else
          match P (String.mk [c1, c2, c3]) with
          | some (h, m) => formatHHMM h m
          | none => String.mk [c1, c2, c3] := by
  have hmem : ∀ c ∈ [c1, c2, c3], pyIsSpace c = false := by
    intro c hc
    simp only [List.mem_cons, List.not_mem_nil, or_false] at hc
    rcases hc with rfl | rfl | rfl
    · exact not_space_of_digit c h1
    · exact not_space_of_digit c h2
    · exact not_space_of_digit c h3
  have hstrip : pystrip (String.mk [c1, c2, c3]) = String.mk [c1, c2, c3] := by
    show String.mk (pystripL [c1, c2, c3]) = String.mk [c1, c2, c3]
    rw [pystripL_all_false _ hmem]
  have hcond : ¬ (String.mk [c1, c2, c3] = "" ∨
      pyLowerStr (String.mk [c1, c2, c3]) = "none") := by
    push_neg
    constructor
    · intro he
      have hd : [c1, c2, c3] = ([] : List Char) := congrArg String.data he
      simp at hd
    · have hmap : pyLowerStr (String.mk [c1, c2, c3]) = String.mk [c1, c2, c3] := by
        simp [pyLowerStr, pyLower_digit c1 h1, pyLower_digit c2 h2, pyLower_digit c3 h3]
      rw [hmap]
      intro he
      have hd : [c1, c2, c3] = ['n', 'o', 'n', 'e'] := congrArg String.data he
      simp at hd
  simp only [normalizeOne, hstrip]
  rw [if_neg hcond]
  simp only [data_mk, h1, h2, h3, Bool.and_self, if_true]

theorem normalizeOne_digits4 (P : TimeParse) (c1 c2 c3 c4 : Char)
    (h1 : pyIsDigitChar c1 = true) (h2 : pyIsDigitChar c2 = true)
    (h3 : pyIsDigitChar c3 = true) (h4 : pyIsDigitChar c4 = true) :
    normalizeOne P (some (String.mk [c1, c2, c3, c4]))
      = if 10 * digitVal c1 + digitVal c2 ≤ 23 &&
            10 * digitVal c3 + digitVal c4 ≤ 59 then
          formatHHMM (10 * digitVal c1 + digitVal c2) (10 * digitVal c3 + digitVal c4)
        else
          match P (String.mk [c1, c2, c3, c4]) with
          | some (h, m) => formatHHMM h m
          | none => String.mk [c1, c2, c3, c4] := by
  have hmem : ∀ c ∈ [c1, c2, c3, c4], pyIsSpace c = false := by
    intro c hc
    simp only [List.mem_cons, List.not_mem_nil, or_false] at hc
    rcases hc with rfl | rfl | rfl | rfl
    · exact not_space_of_digit c h1
    · exact not_space_of_digit c h2
    · exact not_space_of_digit c h3
    · exact not_space_of_digit c h4
  have hstrip : pystrip (String.mk [c1, c2, c3, c4]) = String.mk [c1, c2, c3, c4] := by
    show String.mk (pystripL [c1, c2, c3, c4]) = String.mk [c1, c2, c3, c4]
    rw [pystripL_all_false _ hmem]
  have hcond : ¬ (String.mk [c1, c2, c3, c4] = "" ∨
      pyLowerStr (String.mk [c1, c2, c3, c4]) = "none") := by
    push_neg
    constructor
    · intro he
      have hd : [c1, c2, c3, c4] = ([] : List Char) := congrArg String.data he
      simp at hd
    · have hmap : pyLowerStr (String.mk [c1, c2, c3, c4])
          = String.mk [c1, c2, c3, c4] := by
        simp [pyLowerStr, pyLower_digit c1 h1, pyLower_digit c2 h2,
          pyLower_digit c3 h3, pyLower_digit c4 h4]
      rw [hmap]
      intro he
      have hd : [c1, c2, c3, c4] = ['n', 'o', 'n', 'e'] := congrArg String.data he
      have hc1 : c1 = 'n' := by
        simpa using congrArg (fun l => l.headI) hd
      rw [hc1] at h1
      exact absurd h1 (by decide)
  simp only [normalizeOne, hstrip]
  rw [if_neg hcond]
  simp only [data_mk, h1, h2, h3, h4, Bool.and_self, if_true]

/-- C4: the normalizer maps missing values, blank strings and any case
variant of `"none"` to the empty string; a trimmed string of exactly 3 or
4 digits whose positional hour is at most 23 and minute at most 59 is
formatted as zero-padded `HH:MM`; in particular `"1725" ↦ "17:25"` and
`"930" ↦ "09:30"`, for every generic parser. -/
theorem c4_normalize_empty_none_digits (P : TimeParse) :
    normalizeOne P none = "" ∧
    (∀ s : String, pystrip s = "" → normalizeOne P (some s) = "") ∧
    (∀ s : String, pyLowerStr (pystrip s) = "none" → normalizeOne P (some s) = "") ∧
    (∀ c1 c2 c3 : Char, pyIsDigitChar c1 = true → pyIsDigitChar c2 = true →
      pyIsDigitChar c3 = true → digitVal c1 ≤ 23 →
      10 * digitVal c2 + digitVal c3 ≤ 59 →
      normalizeOne P (some (String.mk [c1, c2, c3]))
        = formatHHMM (digitVal c1) (10 * digitVal c2 + digitVal c3)) ∧
    (∀ c1 c2 c3 c4 : Char, pyIsDigitChar c1 = true → pyIsDigitChar c2 = true →
      pyIsDigitChar c3 = true → pyIsDigitChar c4 = true →
      10 * digitVal c1 + digitVal c2 ≤ 23 →
      10 * digitVal c3 + digitVal c4 ≤ 59 →
      normalizeOne P (some (String.mk [c1, c2, c3, c4]))
        = formatHHMM (10 * digitVal c1 + digitVal c2)
            (10 * digitVal c3 + digitVal c4)) ∧
    normalizeOne P (some "1725") = "17:25" ∧
    normalizeOne P (some "930") = "09:30" ∧
    normalize_schedule_to_hhmm P [some "1725", some "930", some "", some "NONE", none]
      = ["17:25", "09:30", "", "", ""] := by
  refine ⟨rfl, ?_, ?_, ?_, ?_, rfl, rfl, rfl⟩
  · intro s h
    simp only [normalizeOne]
    rw [if_pos (Or.inl h)]
  · intro s h
    simp only [normalizeOne]
    rw [if_pos (Or.inr h)]
  · intro c1 c2 c3 h1 h2 h3 hh hm
    rw [normalizeOne_digits3 P c1 c2 c3 h1 h2 h3]
    rw [if_pos (by simp [hh, hm])]
  · intro c1 c2 c3 c4 h1 h2 h3 h4 hh hm
    rw [normalizeOne_digits4 P c1 c2 c3 c4 h1 h2 h3 h4]
    rw [if_pos (by simp [hh, hm])]

/-- C4 witness: the theorem instantiated at the concrete parser
`hhmmColonParse` and concrete inputs. -/
theorem c4_witness :
    normalizeOne hhmmColonParse (some "  ") = "" ∧
    normalizeOne hhmmColonParse (some " NoNe ") = "" ∧
    normalizeOne hhmmColonParse (some (String.mk ['9', '3', '0'])) = "09:30" ∧
    normalizeOne hhmmColonParse (some (String.mk ['1', '7', '2', '5'])) = "17:25" := by
  refine ⟨?_, ?_, ?_, ?_⟩
  · exact (c4_normalize_empty_none_digits hhmmColonParse).2.1 "  " (by decide)
  · exact (c4_normalize_empty_none_digits hhmmColonParse).2.2.1 " NoNe " (by decide)
  · exact ((c4_normalize_empty_none_digits hhmmColonParse).2.2.2.1 '9' '3' '0'
      (by decide) (by decide) (by decide) (by decide) (by decide)).trans (by decide)
  · exact ((c4_normalize_empty_none_digits hhmmColonParse).2.2.2.2.1 '1' '7' '2' '5'
      (by decide) (by decide) (by decide) (by decide) (by decide) (by decide)).trans
      (by decide)

/-- C5: a trimmed 3- or 4-digit string whose positional hour/minute fall
outside the valid ranges is never formatted positionally: the normalizer
falls through to the generic parser, and when that parser coerces the
input to `NaT` (as pandas does for `"2599"`, whose year-2599 reading is
outside the representable `Timestamp` range), the original trimmed string
is returned unchanged; in particular `normalize("2599") = "2599"`. -/
theorem c5_out_of_range_falls_through (P : TimeParse) :
    (∀ c1 c2 c3 : Char, pyIsDigitChar c1 = true → pyIsDigitChar c2 = true →
      pyIsDigitChar c3 = true →
      ¬ (digitVal c1 ≤ 23 ∧ 10 * digitVal c2 + digitVal c3 ≤ 59) →
      normalizeOne P (some (String.mk [c1, c2, c3]))
        = (match P (String.mk [c1, c2, c3]) with
            | some (h, m) => formatHHMM h m
            | none => String.mk [c1, c2, c3])) ∧
    (∀ c1 c2 c3 c4 : Char, pyIsDigitChar c1 = true → pyIsDigitChar c2 = true →
      pyIsDigitChar c3 = true → pyIsDigitChar c4 = true →
      ¬ (10 * digitVal c1 + digitVal c2 ≤ 23 ∧
          10 * digitVal c3 + digitVal c4 ≤ 59) →
      normalizeOne P (some (String.mk [c1, c2, c3, c4]))
        = (match P (String.mk [c1, c2, c3, c4]) with
            | some (h, m) => formatHHMM h m
            | none => String.mk [c1, c2, c3, c4])) ∧
    (P "2599" = none → normalizeOne P (some "2599") = "2599") := by
  refine ⟨?_, ?_, ?_⟩
  · intro c1 c2 c3 h1 h2 h3 hout
    rw [normalizeOne_digits3 P c1 c2 c3 h1 h2 h3]
    rw [if_neg (by simpa using hout)]
  · intro c1 c2 c3 c4 h1 h2 h3 h4 hout
    rw [normalizeOne_digits4 P c1 c2 c3 c4 h1 h2 h3 h4]
    rw [if_neg (by simpa using hout)]
  · intro h
    have h25 : normalizeOne P (some "2599")
        = (match P (String.mk ['2', '5', '9', '9']) with
            | some (hh, mm) => formatHHMM hh mm
            | none => String.mk ['2', '5', '9', '9']) := by
      refine Eq.trans ?_ (normalizeOne_digits4 P '2' '5' '9' '9'
        (by decide) (by decide) (by decide) (by decide) |>.trans
        (if_neg (by decide)))
      rfl
    rw [h25]
    have h' : P (String.mk ['2', '5', '9', '9']) = none := h
    rw [h']

theorem digitChar_isDigit : ∀ n : Nat, n ≤ 9 → pyIsDigitChar (digitChar n) = true := by
  decide

theorem digitChar_notSpace : ∀ n : Nat, n ≤ 9 → pyIsSpace (digitChar n) = false := by
  decide

theorem digitVal_digitChar : ∀ n : Nat, n ≤ 9 → digitVal (digitChar n) = n := by
  decide

theorem normalizeOne_pystrip (P : TimeParse) (v : String) :
    normalizeOne P (some (pystrip v)) = normalizeOne P (some v) := by
  simp only [normalizeOne, pystrip_idem]

theorem normalizeOne_format (P : TimeParse)
    (hP2 : ∀ h m : Nat, h ≤ 23 → m ≤ 59 → P (formatHHMM h m) = some (h, m))
    (h m : Nat) (hh : h ≤ 23) (hm : m ≤ 59) :
    normalizeOne P (some (formatHHMM h m)) = formatHHMM h m := by
  have hd1 := digitChar_notSpace (h / 10) (by omega)
  have hd2 := digitChar_notSpace (h % 10) (by omega)
  have hd3 := digitChar_notSpace (m / 10) (by omega)
  have hd4 := digitChar_notSpace (m % 10) (by omega)
  have hmem : ∀ c ∈ [digitChar (h / 10), digitChar (h % 10), ':',
      digitChar (m / 10), digitChar (m % 10)], pyIsSpace c = false := by
    intro c hc
    simp only [List.mem_cons, List.not_mem_nil, or_false] at hc
    rcases hc with rfl | rfl | rfl | rfl | rfl
    exacts [hd1, hd2, by decide, hd3, hd4]
  have hstrip : pystrip (formatHHMM h m) = formatHHMM h m := by
    show String.mk (pystripL [digitChar (h / 10), digitChar (h % 10), ':',
      digitChar (m / 10), digitChar (m % 10)]) = formatHHMM h m
    rw [pystripL_all_false _ hmem]
    rfl
  have hlen : (pyLowerStr (formatHHMM h m)).data.length = 5 := by
    simp [pyLowerStr, formatHHMM]
  have hcond : ¬ (formatHHMM h m = "" ∨ pyLowerStr (formatHHMM h m) = "none") := by
    push_neg
    constructor
    · intro he
      have hd : (formatHHMM h m).data.length = 0 := by rw [he]; rfl
      simp [formatHHMM] at hd
    · intro he
      rw [he] at hlen
      exact absurd hlen (by decide)
  have hp := hP2 h m hh hm
  simp only [formatHHMM] at hp
  simp only [normalizeOne, hstrip]
  rw [if_neg hcond]
  simp only [formatHHMM, data_mk]
  rw [hp]

theorem normalizeOne_cases (P : TimeParse)
    (hP1 : ∀ (s : String) (h m : Nat), P s = some (h, m) → h ≤ 23 ∧ m ≤ 59)
    (s : String) :
    normalizeOne P (some s) = "" ∨
    (∃ h m : Nat, h ≤ 23 ∧ m ≤ 59 ∧ normalizeOne P (some s) = formatHHMM h m) ∨
    normalizeOne P (some s) = pystrip s := by
  rcases hp : P (pystrip s) with _ | ⟨hh, mm⟩
  · simp only [normalizeOne, hp]
    split
    · left; rfl
    · split
      · split
        · split
          · next hcnd =>
            simp only [Bool.and_eq_true, decide_eq_true_eq] at hcnd
            right; left
            exact ⟨_, _, hcnd.1, hcnd.2, rfl⟩
          · right; right; rfl
        · right; right; rfl
      · split
        · split
          · next hcnd =>
            simp only [Bool.and_eq_true, decide_eq_true_eq] at hcnd
            right; left
            exact ⟨_, _, hcnd.1, hcnd.2, rfl⟩
          · right; right; rfl
        · right; right; rfl
      · right; right; rfl
  · obtain ⟨b1, b2⟩ := hP1 (pystrip s) hh mm hp
    simp only [normalizeOne, hp]
    split
    · left; rfl
    · split
      · split
        · split
          · next hcnd =>
            simp only [Bool.and_eq_true, decide_eq_true_eq] at hcnd
            right; left
            exact ⟨_, _, hcnd.1, hcnd.2, rfl⟩
          · right; left; exact ⟨hh, mm, b1, b2, rfl⟩
        · right; left; exact ⟨hh, mm, b1, b2, rfl⟩
      · split
        · split
          · next hcnd =>
            simp only [Bool.and_eq_true, decide_eq_true_eq] at hcnd
            right; left
            exact ⟨_, _, hcnd.1, hcnd.2, rfl⟩
          · right; left; exact ⟨hh, mm, b1, b2, rfl⟩
        · right; left; exact ⟨hh, mm, b1, b2, rfl⟩
      · right; left; exact ⟨hh, mm, b1, b2, rfl⟩

/-- C6: the normalizer is idempotent.  The two hypotheses record the
relevant documented behaviour of the external pandas parser: a parse
obtained from a timestamp always has hour ≤ 23 and minute ≤ 59, and a
canonical `HH:MM` string parses back to exactly that hour and minute.
Under them, `normalize(normalize(x)) = normalize(x)` for every input, and
an already-canonical `HH:MM` string is returned unchanged. -/
theorem c6_normalize_idempotent (P : TimeParse)
    (hP1 : ∀ (s : String) (h m : Nat), P s = some (h, m) → h ≤ 23 ∧ m ≤ 59)
    (hP2 : ∀ h m : Nat, h ≤ 23 → m ≤ 59 → P (formatHHMM h m) = some (h, m)) :
    (∀ v : Option String,
      normalizeOne P (some (normalizeOne P v)) = normalizeOne P v) ∧
    (∀ h m : Nat, h ≤ 23 → m ≤ 59 →
      normalizeOne P (some (formatHHMM h m)) = formatHHMM h m) := by
  refine ⟨?_, normalizeOne_format P hP2⟩
  intro v
  cases v with
  | none => rfl
  | some s =>
    rcases normalizeOne_cases P hP1 s with h | ⟨hh, mm, b1, b2, hfmteq⟩ | hpass
    · rw [h]
      rfl
    · rw [hfmteq]
      exact normalizeOne_format P hP2 hh mm b1 b2
    · rw [hpass, normalizeOne_pystrip P s]
      exact hpass

theorem hhmmColonParse_bounds :
    ∀ (s : String) (h m : Nat), hhmmColonParse s = some (h, m) → h ≤ 23 ∧ m ≤ 59 := by
  intro s h m hp
  unfold hhmmColonParse at hp
  split at hp
  · split at hp
    · split at hp
      · next hcnd =>
        simp only [Bool.and_eq_true, decide_eq_true_eq] at hcnd
        cases hp
        exact hcnd
      · cases hp
    · cases hp
  · cases hp

theorem hhmmColonParse_format :
    ∀ h : Nat, h ≤ 23 → ∀ m : Nat, m ≤ 59 →
      hhmmColonParse (formatHHMM h m) = some (h, m) := by
  decide

/-- C6 witness: idempotence at the concrete parser `hhmmColonParse` on a
concrete input, and invariance of a concrete canonical `HH:MM` string. -/
theorem c6_witness :
    normalizeOne hhmmColonParse (some (normalizeOne hhmmColonParse (some " 930 ")))
      = normalizeOne hhmmColonParse (some " 930 ") ∧
    normalizeOne hhmmColonParse (some (String.mk ['0', '9', ':', '3', '0']))
      = String.mk ['0', '9', ':', '3', '0'] := by
  have hmain := c6_normalize_idempotent hhmmColonParse hhmmColonParse_bounds
    (fun h m hh hm => hhmmColonParse_format h hh m hm)
  exact ⟨hmain.1 (some " 930 "), hmain.2 9 30 (by decide) (by decide)⟩

/-- C5 witness: the theorem instantiated at the concrete parser
`hhmmColonParse`, which coerces `"2599"` (and `"999"`) to `NaT` exactly
as pandas does. -/
theorem c5_witness :
    normalizeOne hhmmColonParse (some "2599") = "2599" ∧
    normalizeOne hhmmColonParse (some (String.mk ['9', '9', '9']))
      = String.mk ['9', '9', '9'] := by
  refine ⟨?_, ?_⟩
  · exact (c5_out_of_range_falls_through hhmmColonParse).2.2 (by decide)
  · exact ((c5_out_of_range_falls_through hhmmColonParse).1 '9' '9' '9'
      (by decide) (by decide) (by decide) (by decide)).trans (by decide)

theorem pystrip_empty : pystrip "" = "" := rfl

/-- C7: applying defaults returns a new table with the same row count
(and, by the fixed record type, the same column set), built row-by-row
from the input without mutating it; a string cell that is non-blank
after trimming is never overwritten by a default — it is only trimmed. -/
theorem c7_fill_frame {A B D N : Type} (parseDate : A → Option D)
    (parseNum : B → Option N) (defaults : DefaultsRec D N)
    (rows : List (RawRow A B)) :
    (fill_blank_with_default parseDate parseNum defaults rows).length
        = rows.length ∧
    fill_blank_with_default parseDate parseNum defaults rows
        = rows.map (fillRow parseDate parseNum defaults) ∧
    (∀ r : RawRow A B,
      (pystrip (r.Schedule.getD "") ≠ "" →
        (fillRow parseDate parseNum defaults r).Schedule
          = pystrip (r.Schedule.getD "")) ∧
      (pystrip (r.Section.getD "") ≠ "" →
        (fillRow parseDate parseNum defaults r).Section
          = pystrip (r.Section.getD "")) ∧
      (pystrip (r.Project.getD "") ≠ "" →
        (fillRow parseDate parseNum defaults r).Project
          = pystrip (r.Project.getD "")) ∧
      (pystrip (r.Tag.getD "") ≠ "" →
        (fillRow parseDate parseNum defaults r).Tag
          = pystrip (r.Tag.getD "")) ∧
      (pystrip (r.TaskName.getD "") ≠ "" →
        (fillRow parseDate parseNum defaults r).TaskName
          = pystrip (r.TaskName.getD ""))) := by
  refine ⟨by simp [fill_blank_with_default], rfl, ?_⟩
  intro r
  refine ⟨?_, ?_, ?_, ?_, ?_⟩
  all_goals intro h
  all_goals simp [fillRow, strCell, h]

/-- C7 witness: the theorem applied to a concrete one-row table. -/
theorem c7_witness :
    (fill_blank_with_default (fun x : Option Int => x) (fun x : Option Int => x)
        ⟨0, "09:00", "S", "P", "T", "N", 5⟩
        [⟨none, some " 930 ", some "", none, some "x", some " task ", none⟩]).length
      = 1 ∧
    (fillRow (fun x : Option Int => x) (fun x : Option Int => x)
        ⟨0, "09:00", "S", "P", "T", "N", 5⟩
        ⟨none, some " 930 ", some "", none, some "x", some " task ", none⟩).TaskName
      = "task" := by
  refine ⟨?_, ?_⟩
  · exact (c7_fill_frame (fun x : Option Int => x) (fun x : Option Int => x)
      ⟨0, "09:00", "S", "P", "T", "N", 5⟩
      [⟨none, some " 930 ", some "", none, some "x", some " task ", none⟩]).1
  · exact (((c7_fill_frame (fun x : Option Int => x) (fun x : Option Int => x)
      ⟨0, "09:00", "S", "P", "T", "N", 5⟩ []).2.2
      ⟨none, some " 930 ", some "", none, some "x", some " task ", none⟩).2.2.2.2
      (by decide)).trans (by decide)

/-- C8: every exported row has a non-empty `TaskName` after trimming;
when the defaults record supplies a non-empty `TaskName`, no
defaulted row has an empty `TaskName`; the export pipeline distributes
over concatenation, and a row whose `TaskName` is blank while the
default `TaskName` is also blank is excluded from the output. -/
theorem c8_export_taskname {A B D N : Type} (parseDate : A → Option D)
    (parseNum : B → Option N) (fmtDate : D → String) (P : TimeParse)
    (defaults : DefaultsRec D N) (rows : List (RawRow A B)) :
    (∀ r ∈ output_rows parseDate parseNum fmtDate P defaults rows,
        pystrip r.TaskName ≠ "") ∧
    (defaults.TaskName ≠ "" →
      ∀ r ∈ fill_blank_with_default parseDate parseNum defaults rows,
        r.TaskName ≠ "") ∧
    (∀ rows2 : List (RawRow A B),
        output_rows parseDate parseNum fmtDate P defaults (rows ++ rows2)
          = output_rows parseDate parseNum fmtDate P defaults rows
            ++ output_rows parseDate parseNum fmtDate P defaults rows2) ∧
    (∀ r : RawRow A B, pystrip (r.TaskName.getD "") = "" →
        defaults.TaskName = "" →
        output_rows parseDate parseNum fmtDate P defaults [r] = []) := by
  refine ⟨?_, ?_, ?_, ?_⟩
  · intro r hr
    simp only [output_rows, fill_blank_with_default, List.mem_map,
      List.mem_filter, decide_eq_true_eq] at hr
    obtain ⟨k, ⟨⟨f, hf, rfl⟩, hkeep⟩, rfl⟩ := hr
    simp only at hkeep ⊢
    rw [pystrip_idem]
    exact hkeep
  · intro hd r hr
    simp only [fill_blank_with_default, List.mem_map] at hr
    obtain ⟨r0, _, rfl⟩ := hr
    show strCell defaults.TaskName r0.TaskName ≠ ""
    simp only [strCell]
    by_cases hv : pystrip (r0.TaskName.getD "") = ""
    · rw [if_pos ⟨hd, hv⟩]
      exact hd
    · rw [if_neg (fun hc => hv hc.2)]
      exact hv
  · intro rows2
    simp [output_rows, fill_blank_with_default]
  · intro r h1 h2
    have hcell : (fillRow parseDate parseNum defaults r).TaskName = "" := by
      show strCell defaults.TaskName r.TaskName = ""
      simp only [strCell, h2]
      rw [if_neg (by simp)]
      exact h1
    simp [output_rows, fill_blank_with_default, hcell, pystrip_empty]

/-- C8 witness: the theorem applied to concrete tables — a blank row is
dropped when the default `TaskName` is blank, and a blank row receives a
non-empty `TaskName` when the default supplies one. -/
theorem c8_witness :
    output_rows (fun x : Option Int => x) (fun x : Option Int => x)
        (fun _ : Int => "2026/01/01") hhmmColonParse
        ⟨0, "", "", "", "", "", 5⟩
        [⟨none, none, none, none, none, some "   ", none⟩] = [] ∧
    (fillRow (fun x : Option Int => x) (fun x : Option Int => x)
        ⟨0, "", "", "", "", "todo", 5⟩
        ⟨none, none, none, none, none, some "   ", none⟩).TaskName ≠ "" := by
  refine ⟨?_, ?_⟩
  · exact (c8_export_taskname (fun x : Option Int => x) (fun x : Option Int => x)
      (fun _ : Int => "2026/01/01") hhmmColonParse ⟨0, "", "", "", "", "", 5⟩
      []).2.2.2 ⟨none, none, none, none, none, some "   ", none⟩
      (by decide) (by decide)
  · exact (c8_export_taskname (fun x : Option Int => x) (fun x : Option Int => x)
      (fun _ : Int => "2026/01/01") hhmmColonParse ⟨0, "", "", "", "", "todo", 5⟩
      [⟨none, none, none, none, none, some "   ", none⟩]).2.1 (by decide)
      (fillRow (fun x : Option Int => x) (fun x : Option Int => x)
        ⟨0, "", "", "", "", "todo", 5⟩
        ⟨none, none, none, none, none, some "   ", none⟩)
      (by decide)

theorem getLast_rstrip {α : Type} (p : α → Bool) (l : List α) (a : α)
    (h : ((l.reverse.dropWhile p).reverse).getLast? = some a) : p a = false := by
  rw [List.getLast?_reverse] at h
  rcases hd : l.reverse.dropWhile p with _ | ⟨x, xs⟩
  · rw [hd] at h
    cases h
  · rw [hd] at h
    cases h
    exact dropWhile_head_false p l.reverse a xs hd

/-- C9: `normalize_public_url` repairs the doubled-colon typo, keeps only
the content from the last scheme marker when two URLs are concatenated,
prepends `https://` when no scheme is present, and strips trailing
slashes (the result never ends with `/`).  In particular
`normalize_public_url("https:://foo.app/") = "https://foo.app"`. -/
theorem c9_normalize_public_url :
    normalize_public_url "https:://foo.app/" = "https://foo.app" ∧
    normalize_public_url "http:://x.y/" = "http://x.y" ∧
    normalize_public_url "https://a.comhttps://b.com" = "https://b.com" ∧
    normalize_public_url "foo.app" = "https://foo.app" ∧
    normalize_public_url "https://x.y///" = "https://x.y" ∧
    normalize_public_url "" = "" ∧
    (∀ url : String, (normalize_public_url url).data.getLast? ≠ some '/') := by
  refine ⟨by decide, by decide, by decide, by decide, by decide, rfl, ?_⟩
  intro url h
  unfold normalize_public_url at h
  by_cases h0 : pystripL url.data = []
  · rw [if_pos h0] at h
    cases h
  · rw [if_neg h0] at h
    simp only [data_mk] at h
    have := getLast_rstrip (fun c => c == '/') _ '/' h
    simp at this

/-- C9 witness: the trailing-slash property applied at a concrete URL. -/
theorem c9_witness :
    (normalize_public_url "https://tail.example///").data.getLast? ≠ some '/' :=
  c9_normalize_public_url.2.2.2.2.2.2 "https://tail.example///"

theorem invStd_alphaStd : ∀ n : Nat, n < 64 → b64InvStd (b64AlphaStd n) = some n := by
  decide

theorem invUrl_alphaUrl : ∀ n : Nat, n < 64 → b64InvUrl (b64AlphaUrl n) = some n := by
  decide

theorem keepStd_alphaStd : ∀ n : Nat, n < 64 → b64KeepStd (b64AlphaStd n) = true := by
  decide

theorem keepUrl_alphaUrl : ∀ n : Nat, n < 64 → b64KeepUrl (b64AlphaUrl n) = true := by
  decide

theorem alphaStd_ne_pad : ∀ n : Nat, n < 64 → b64AlphaStd n ≠ '=' := by
  decide

theorem alphaUrl_ne_pad : ∀ n : Nat, n < 64 → b64AlphaUrl n ≠ '=' := by
  decide

theorem threeStep {α : Type} (motive : List α → Prop) (h0 : motive [])
    (h1 : ∀ a, motive [a]) (h2 : ∀ a b, motive [a, b])
    (h3 : ∀ a b c rest, motive rest → motive (a :: b :: c :: rest)) :
    ∀ l, motive l
  | [] => h0
  | [a] => h1 a
  | [a, b] => h2 a b
  | a :: b :: c :: rest => h3 a b c rest (threeStep motive h0 h1 h2 h3 rest)

theorem mem_b64Body (alpha : Nat → Char) :
    ∀ l : List Nat, (∀ b ∈ l, b < 256) →
      ∀ c ∈ b64Body alpha l, ∃ n, n < 64 ∧ c = alpha n := by
  intro l
  induction l using threeStep with
  | h0 =>
    intro _ c hc
    simp [b64Body] at hc
  | h1 a =>
    intro hl c hc
    have ha : a < 256 := hl a (by simp)
    simp only [b64Body, List.mem_cons, List.not_mem_nil, or_false] at hc
    rcases hc with rfl | rfl
    · exact ⟨a / 4, by omega, rfl⟩
    · exact ⟨a % 4 * 16, by omega, rfl⟩
  | h2 a b =>
    intro hl c hc
    have ha : a < 256 := hl a (by simp)
    have hb : b < 256 := hl b (by simp)
    simp only [b64Body, List.mem_cons, List.not_mem_nil, or_false] at hc
    rcases hc with rfl | rfl | rfl
    · exact ⟨a / 4, by omega, rfl⟩
    · exact ⟨a % 4 * 16 + b / 16, by omega, rfl⟩
    · exact ⟨b % 16 * 4, by omega, rfl⟩
  | h3 a b c rest ih =>
    intro hl x hx
    have ha : a < 256 := hl a (by simp)
    have hb : b < 256 := hl b (by simp)
    have hc : c < 256 := hl c (by simp)
    simp only [b64Body, List.mem_cons] at hx
    rcases hx with rfl | rfl | rfl | rfl | hx
    · exact ⟨a / 4, by omega, rfl⟩
    · exact ⟨a % 4 * 16 + b / 16, by omega, rfl⟩
    · exact ⟨b % 16 * 4 + c / 64, by omega, rfl⟩
    · exact ⟨c % 64, by omega, rfl⟩
    · exact ih (fun y hy => hl y (by simp [hy])) x hx

theorem mem_b64PadChars (n : Nat) (c : Char) (hc : c ∈ b64PadChars n) : c = '=' := by
  unfold b64PadChars at hc
  split at hc
  · rcases List.mem_cons.mp hc with rfl | hc2
    · rfl
    · simpa using hc2
  · split at hc
    · simpa using hc
    · simp at hc

theorem filter_body_pad (alpha : Nat → Char) (keep : Char → Bool)
    (hk : ∀ n, n < 64 → keep (alpha n) = true) (hkeq : keep '=' = true)
    (l : List Nat) (hl : ∀ b ∈ l, b < 256) :
    (b64Body alpha l ++ b64PadChars l.length).filter keep
      = b64Body alpha l ++ b64PadChars l.length := by
  rw [List.filter_eq_self]
  intro a ha
  rcases List.mem_append.mp ha with h | h
  · obtain ⟨n, hn, rfl⟩ := mem_b64Body alpha l hl a h
    exact hk n hn
  · rw [mem_b64PadChars l.length a h]
    exact hkeq

theorem b64Body_ne_nil (alpha : Nat → Char) (x : Nat) (xs : List Nat) :
    b64Body alpha (x :: xs) ≠ [] := by
  cases xs with
  | nil => simp [b64Body]
  | cons y ys => cases ys <;> simp [b64Body]

theorem decGroups_body_pad (alpha : Nat → Char) (inv : Char → Option Nat)
    (hinv : ∀ n, n < 64 → inv (alpha n) = some n)
    (hne : ∀ n, n < 64 → alpha n ≠ '=') :
    ∀ l : List Nat, (∀ b ∈ l, b < 256) →
      b64DecGroups inv (b64Body alpha l ++ b64PadChars l.length) = some l := by
  intro l
  induction l using threeStep with
  | h0 => intro _; rfl
  | h1 a =>
    intro hl
    have ha : a < 256 := hl a (by simp)
    have e1 := hinv (a / 4) (by omega)
    have e2 := hinv (a % 4 * 16) (by omega)
    show b64DecGroups inv [alpha (a / 4), alpha (a % 4 * 16), '=', '='] = some [a]
    simp [b64DecGroups, b64DecLast, e1, e2]
    omega
  | h2 a b =>
    intro hl
    have ha : a < 256 := hl a (by simp)
    have hb : b < 256 := hl b (by simp)
    have e1 := hinv (a / 4) (by omega)
    have e2 := hinv (a % 4 * 16 + b / 16) (by omega)
    have e3 := hinv (b % 16 * 4) (by omega)
    have hq : alpha (b % 16 * 4) ≠ '=' := hne _ (by omega)
    show b64DecGroups inv
      [alpha (a / 4), alpha (a % 4 * 16 + b / 16), alpha (b % 16 * 4), '='] = some [a, b]
    simp [b64DecGroups, b64DecLast, e1, e2, e3, hq]
    omega
  | h3 a b c rest ih =>
    intro hl
    have ha : a < 256 := hl a (by simp)
    have hb : b < 256 := hl b (by simp)
    have hc : c < 256 := hl c (by simp)
    have e1 := hinv (a / 4) (by omega)
    have e2 := hinv (a % 4 * 16 + b / 16) (by omega)
    have e3 := hinv (b % 16 * 4 + c / 64) (by omega)
    have e4 := hinv (c % 64) (by omega)
    cases rest with
    | nil =>
      have hq3 : alpha (b % 16 * 4 + c / 64) ≠ '=' := hne _ (by omega)
      have hq4 : alpha (c % 64) ≠ '=' := hne _ (by omega)
      have hshape : b64Body alpha [a, b, c] ++ b64PadChars ([a, b, c].length)
          = [alpha (a / 4), alpha (a % 4 * 16 + b / 16), alpha (b % 16 * 4 + c / 64),
            alpha (c % 64)] := by
        simp [b64Body, b64PadChars]
      rw [hshape]
      simp [b64DecGroups, b64DecLast, e1, e2, e3, e4, hq3, hq4]
      omega
    | cons r rs =>
      have hrest : ∀ x ∈ r :: rs, x < 256 := fun x hx => hl x (by simp at hx ⊢; tauto)
      have hpad3 : b64PadChars ((a :: b :: c :: r :: rs).length)
          = b64PadChars ((r :: rs).length) := by
        have hlen : (a :: b :: c :: r :: rs).length = (r :: rs).length + 3 := by simp
        rw [hlen]
        simp [b64PadChars, Nat.add_mod_right]
      rw [hpad3]
      have hbody : b64Body alpha (a :: b :: c :: r :: rs)
          = alpha (a / 4) :: alpha (a % 4 * 16 + b / 16) :: alpha (b % 16 * 4 + c / 64) ::
            alpha (c % 64) :: b64Body alpha (r :: rs) := rfl
      rw [hbody]
      simp only [List.cons_append]
      have hnn : b64Body alpha (r :: rs) ++ b64PadChars ((r :: rs).length) ≠ [] := by
        simp [b64Body_ne_nil alpha r rs]
      obtain ⟨yh, yt, hys⟩ := List.exists_cons_of_ne_nil hnn
      rw [hys]
      have hrec : b64DecGroups inv (yh :: yt) = some (r :: rs) := by
        rw [← hys]
        exact ih hrest
      simp [b64DecGroups, e1, e2, e3, e4, hrec]
      omega

theorem dropWhile_append_of_all {α : Type} (p : α → Bool) (xs ys : List α)
    (h : ∀ x ∈ xs, p x = true) : (xs ++ ys).dropWhile p = ys.dropWhile p := by
  induction xs with
  | nil => rfl
  | cons a t ih =>
    simp only [List.cons_append, List.dropWhile_cons, h a (by simp), if_true]
    exact ih (fun x hx => h x (by simp [hx]))

theorem rstripEqL_encode (alpha : Nat → Char) (hne : ∀ n, n < 64 → alpha n ≠ '=')
    (l : List Nat) (hl : ∀ b ∈ l, b < 256) :
    rstripEqL (b64Body alpha l ++ b64PadChars l.length) = b64Body alpha l := by
  have hpad : ∀ x ∈ (b64PadChars l.length).reverse, (x == '=') = true := by
    intro x hx
    rw [List.mem_reverse] at hx
    rw [mem_b64PadChars _ _ hx]
    rfl
  have hbody : ∀ c ∈ (b64Body alpha l).reverse, (c == '=') = false := by
    intro c hc
    rw [List.mem_reverse] at hc
    obtain ⟨n, hn, rfl⟩ := mem_b64Body alpha l hl c hc
    simpa using hne n hn
  unfold rstripEqL
  rw [List.reverse_append, dropWhile_append_of_all _ _ _ hpad,
    dropWhile_all_false _ _ hbody, List.reverse_reverse]

theorem replicate_pad (alpha : Nat → Char) :
    ∀ l : List Nat,
      List.replicate ((4 - (b64Body alpha l).length % 4) % 4) '='
        = b64PadChars l.length := by
  intro l
  induction l using threeStep with
  | h0 => simp [b64Body, b64PadChars, List.replicate]
  | h1 a => simp [b64Body, b64PadChars, List.replicate]
  | h2 a b => simp [b64Body, b64PadChars, List.replicate]
  | h3 a b c rest ih =>
    have hlen4 : (b64Body alpha (a :: b :: c :: rest)).length
        = 4 + (b64Body alpha rest).length := by
      simp [b64Body]
      omega
    have hmod : (4 - (4 + (b64Body alpha rest).length) % 4) % 4
        = (4 - (b64Body alpha rest).length % 4) % 4 := by omega
    rw [hlen4, hmod, ih]
    have hlen3 : (a :: b :: c :: rest).length = rest.length + 3 := by simp
    rw [hlen3]
    simp [b64PadChars, Nat.add_mod_right]

theorem len_mk (l : List Char) : (String.mk l).length = l.length := rfl

theorem decode_of_body_pad (alpha : Nat → Char) (inv : Char → Option Nat)
    (keep : Char → Bool) (hk : ∀ n, n < 64 → keep (alpha n) = true)
    (hkeq : keep '=' = true) (hinv : ∀ n, n < 64 → inv (alpha n) = some n)
    (hne : ∀ n, n < 64 → alpha n ≠ '=') (l : List Nat) (hl : ∀ b ∈ l, b < 256) :
    b64decode inv keep (String.mk (b64Body alpha l) ++ String.mk (b64PadChars l.length))
      = some l := by
  unfold b64decode
  rw [show (String.mk (b64Body alpha l) ++ String.mk (b64PadChars l.length)).data
      = b64Body alpha l ++ b64PadChars l.length from rfl]
  rw [filter_body_pad alpha keep hk hkeq l hl]
  exact decGroups_body_pad alpha inv hinv hne l hl

theorem decode_of_encodeStd (l : List Nat) (hl : ∀ b ∈ l, b < 256) :
    b64decode b64InvStd b64KeepStd (b64encode b64AlphaStd l) = some l := by
  unfold b64decode b64encode
  rw [show (String.mk (b64Body b64AlphaStd l ++ b64PadChars l.length)).data
      = b64Body b64AlphaStd l ++ b64PadChars l.length from rfl]
  rw [filter_body_pad b64AlphaStd b64KeepStd keepStd_alphaStd rfl l hl]
  exact decGroups_body_pad b64AlphaStd b64InvStd invStd_alphaStd alphaStd_ne_pad l hl

theorem decode_encode (Z : ZlibModel) (J : JsonEnvModel)
    (hZlt : ∀ s : String, ∀ b ∈ Z.comp s, b < 256)
    (hZrt : ∀ s : String, Z.decomp (Z.comp s) = some s)
    (hJrt : ∀ (e : Int) (b : String), J.loads (J.dumps e b) = some (e, some b))
    (data : List Nat) (ttl now t : Int) (hdata : ∀ b ∈ data, b < 256) :
    decode_csv_payload Z J t (encode_csv_payload Z J data ttl now)
      = if now + 60 * ttl ≤ t then ((none : Option (List Nat)), some (now + 60 * ttl))
        else (some data, some (now + 60 * ttl)) := by
  have hcomp_lt := hZlt (J.dumps (now + 60 * ttl) (b64encode b64AlphaStd data))
  have henc : encode_csv_payload Z J data ttl now
      = String.mk (b64Body b64AlphaUrl
          (Z.comp (J.dumps (now + 60 * ttl) (b64encode b64AlphaStd data)))) := by
    simp only [encode_csv_payload]
    rw [show (b64encode b64AlphaUrl
        (Z.comp (J.dumps (now + 60 * ttl) (b64encode b64AlphaStd data)))).data
        = b64Body b64AlphaUrl
            (Z.comp (J.dumps (now + 60 * ttl) (b64encode b64AlphaStd data)))
          ++ b64PadChars
            (Z.comp (J.dumps (now + 60 * ttl) (b64encode b64AlphaStd data))).length
      from rfl]
    rw [rstripEqL_encode b64AlphaUrl alphaUrl_ne_pad _ hcomp_lt]
  rw [henc]
  simp only [decode_csv_payload, len_mk]
  rw [replicate_pad b64AlphaUrl]
  rw [decode_of_body_pad b64AlphaUrl b64InvUrl b64KeepUrl keepUrl_alphaUrl rfl
    invUrl_alphaUrl alphaUrl_ne_pad _ hcomp_lt]
  simp only [hZrt, hJrt]
  by_cases hle : now + 60 * ttl ≤ t
  · simp only [if_pos hle]
  · simp only [if_neg hle]
    simp only [decode_of_encodeStd data hdata]

theorem decode_classify (Z : ZlibModel) (J : JsonEnvModel) (t : Int) (s : String) :
    decode_csv_payload Z J t s = (none, none) ∨
    (∃ e : Int, e ≤ t ∧ decode_csv_payload Z J t s = (none, some e)) ∨
    (∃ (d : List Nat) (e : Int), t < e ∧
      decode_csv_payload Z J t s = (some d, some e)) := by
  rcases h1 : b64decode b64InvUrl b64KeepUrl
      (s ++ String.mk (List.replicate ((4 - s.length % 4) % 4) '=')) with _ | comp
  · left
    simp only [decode_csv_payload, h1]
  · rcases h2 : Z.decomp comp with _ | raw
    · left
      simp only [decode_csv_payload, h1, h2]
    · rcases h3 : J.loads raw with _ | ⟨e, bf⟩
      · left
        simp only [decode_csv_payload, h1, h2, h3]
      · by_cases hle : e ≤ t
        · right
          left
          exact ⟨e, hle, by simp only [decode_csv_payload, h1, h2, h3, if_pos hle]⟩
        · rcases bf with _ | bs
          · left
            simp only [decode_csv_payload, h1, h2, h3, if_neg hle]
          · rcases h4 : b64decode b64InvStd b64KeepStd bs with _ | d
            · left
              simp only [decode_csv_payload, h1, h2, h3, if_neg hle, h4]
            · right
              right
              exact ⟨d, e, by omega,
                by simp only [decode_csv_payload, h1, h2, h3, if_neg hle, h4]⟩

theorem char_toNat_lt (c : Char) : c.toNat < 1114112 := by
  have h := c.valid
  rcases h with h | h
  · simp [Char.toNat]
    omega
  · simp [Char.toNat]
    omega

theorem dec3_enc3 : ∀ l : List Char, dec3 (l.flatMap enc3) = some l := by
  intro l
  induction l with
  | nil => rfl
  | cons c t ih =>
    show dec3 (c.toNat / 65536 :: c.toNat / 256 % 256 :: c.toNat % 256 ::
      t.flatMap enc3) = some (c :: t)
    simp only [dec3]
    rw [ih]
    have harith : c.toNat / 65536 * 65536 + c.toNat / 256 % 256 * 256 + c.toNat % 256
        = c.toNat := by omega
    rw [harith, Char.ofNat_toNat]
    rfl

theorem zlibWitness_comp_lt : ∀ s : String, ∀ b ∈ zlibWitness.comp s, b < 256 := by
  intro s b hb
  rcases List.mem_cons.mp hb with rfl | hb2
  · omega
  · rw [List.mem_flatMap] at hb2
    obtain ⟨c, _, hc⟩ := hb2
    have hlt := char_toNat_lt c
    simp only [enc3, List.mem_cons, List.not_mem_nil, or_false] at hc
    rcases hc with rfl | rfl | rfl <;> omega

theorem zlibWitness_decomp_comp :
    ∀ s : String, zlibWitness.decomp (zlibWitness.comp s) = some s := by
  intro s
  show (dec3 (s.data.flatMap enc3)).map String.mk = some s
  rw [dec3_enc3]
  rfl

theorem unzigzag_zigzag (e : Int) : unzigzag (zigzag e) = e := by
  unfold zigzag unzigzag
  by_cases h : 0 ≤ e
  · rw [if_pos h, if_pos (by omega)]
    omega
  · rw [if_neg h, if_neg (by omega)]
    omega

theorem takeWhile_replicate_colon (n : Nat) (rest : List Char) :
    (List.replicate n 'x' ++ ':' :: rest).takeWhile (fun c => c == 'x')
      = List.replicate n 'x' := by
  induction n with
  | zero => simp [List.takeWhile_cons]
  | succ k ih => simp [List.replicate_succ, List.takeWhile_cons, ih]

theorem dropWhile_replicate_colon (n : Nat) (rest : List Char) :
    (List.replicate n 'x' ++ ':' :: rest).dropWhile (fun c => c == 'x')
      = ':' :: rest := by
  induction n with
  | zero => simp [List.dropWhile_cons]
  | succ k ih => simp [List.replicate_succ, List.dropWhile_cons, ih]

theorem jsonWitness_loads_dumps :
    ∀ (e : Int) (b : String),
      jsonWitness.loads (jsonWitness.dumps e b) = some (e, some b) := by
  intro e b
  simp only [jsonWitness, data_mk, dropWhile_replicate_colon,
    takeWhile_replicate_colon, List.length_replicate, unzigzag_zigzag]

/-- C1 (amended): under the external collaborators' contracts (zlib
outputs bytes; decompressing a compression gives back the input; JSON
serialization round-trips), decoding an encoded token strictly before the
embedded expiry `now + 60*ttl` yields exactly the original bytes and that
expiry; decoding at or after the expiry yields `(absent, expiry)`; and
decoding never raises — every string decodes to `(absent, absent)` (some
pipeline stage failed), to `(absent, e)` with `e ≤ now` (expired), or to
`(data, e)` with `now < e`.  A string on which a decoding stage fails
yields `(absent, absent)`, but not every string outside `encode`'s image
fails: see the counterexample. -/
theorem c1_codec_roundtrip (Z : ZlibModel) (J : JsonEnvModel)
    (hZlt : ∀ s : String, ∀ b ∈ Z.comp s, b < 256)
    (hZrt : ∀ s : String, Z.decomp (Z.comp s) = some s)
    (hJrt : ∀ (e : Int) (b : String), J.loads (J.dumps e b) = some (e, some b))
    (data : List Nat) (ttl now t : Int) (hdata : ∀ b ∈ data, b < 256) :
    (t < now + 60 * ttl →
      decode_csv_payload Z J t (encode_csv_payload Z J data ttl now)
        = (some data, some (now + 60 * ttl))) ∧
    (now + 60 * ttl ≤ t →
      decode_csv_payload Z J t (encode_csv_payload Z J data ttl now)
        = (none, some (now + 60 * ttl))) ∧
    (∀ s : String, decode_csv_payload Z J t s = (none, none) ∨
      (∃ e : Int, e ≤ t ∧ decode_csv_payload Z J t s = (none, some e)) ∨
      (∃ (d : List Nat) (e : Int), t < e ∧
        decode_csv_payload Z J t s = (some d, some e))) := by
  refine ⟨?_, ?_, fun s => decode_classify Z J t s⟩
  · intro hlt
    rw [decode_encode Z J hZlt hZrt hJrt data ttl now t hdata, if_neg (by omega)]
  · intro hle
    rw [decode_encode Z J hZlt hZrt hJrt data ttl now t hdata, if_pos hle]

/-- C1 counterexample: the claim as stated also asserts that every
string outside `encode`'s image decodes to `(absent, absent)`.  It does
not: `c1BadToken` (a valid token with its stripped base64 padding
re-attached) is never produced by `encode_csv_payload` — every encoded
token ends with a non-`=` character because the padding is stripped —
yet it decodes to the full payload and expiry. -/
theorem c1_counterexample :
    decode_csv_payload zlibWitness jsonWitness 0 c1BadToken
      = (some [104, 105], some 1) ∧
    (∀ (d : List Nat) (ttl now : Int),
        encode_csv_payload zlibWitness jsonWitness d ttl now ≠ c1BadToken) := by
  constructor
  · decide
  · intro d ttl now heq
    have hlast : c1BadToken.data.getLast? = some '=' := by decide
    rw [← heq] at hlast
    simp only [encode_csv_payload, data_mk, rstripEqL] at hlast
    have hfalse := getLast_rstrip (fun c => c == '=') _ '=' hlast
    simp at hfalse

/-- C1 witness: the amended theorem instantiated at the concrete
collaborator models, with a redemption before and one after expiry. -/
theorem c1_witness :
    decode_csv_payload zlibWitness jsonWitness 0
        (encode_csv_payload zlibWitness jsonWitness [104, 105] 1 (-59))
      = (some [104, 105], some (-59 + 60 * 1)) ∧
    decode_csv_payload zlibWitness jsonWitness 5
        (encode_csv_payload zlibWitness jsonWitness [104, 105] 1 (-59))
      = (none, some (-59 + 60 * 1)) := by
  have h0 := c1_codec_roundtrip zlibWitness jsonWitness zlibWitness_comp_lt
    zlibWitness_decomp_comp jsonWitness_loads_dumps [104, 105] 1 (-59) 0 (by decide)
  have h5 := c1_codec_roundtrip zlibWitness jsonWitness zlibWitness_comp_lt
    zlibWitness_decomp_comp jsonWitness_loads_dumps [104, 105] 1 (-59) 5 (by decide)
  exact ⟨h0.1 (by decide), h5.2.1 (by decide)⟩
